import Mathlib

/-!
Verification of the EMSMiner mining engine (src/main.go) against its
natural-language specification.

Modelling conventions:
* Go `float64` arithmetic in the mining engine is modelled by exact rational
  arithmetic (`ℚ`).  The properties verified here (loop structure, acceptance
  soundness, iteration bounds, clamping, sort order) are arithmetic-generic:
  both the shortcut evaluator and the independent re-evaluation run over the
  same arithmetic, exactly as in the program.  Floating-point rounding
  anomalies (NaN payloads, signed zero) are outside the shallow embedding.
* For the byte-level serialization claims, a `float64` is modelled by its
  64-bit pattern (a `Nat` below `2 ^ 64`), because `binary.Write` with
  little-endian byte order serializes exactly the bit pattern; the comparisons
  used by the sort are the IEEE-754 comparisons, implemented on bit patterns.
* Go `int` is modelled by `Int` (the program never overflows in the claims'
  scope).
* The wall-clock-bounded, RNG-driven probing phase of `GenerateGuidemap` is
  not deterministic, so the guidemap contents at the start of mining are a
  parameter (`mineGuidemap data`); its deterministic shape (51 by 51 cells
  over the square domain from -2 to 2 in both axes) is fixed as in the code.
* The candidate stream drawn from `rand.Float64` is modelled as an explicit
  (finite) list of candidates threaded through the mining loop; exhausting the
  list returns `none`, which models the (possibly unbounded) continuation of
  the real loop.  Telemetry printing is state-independent of the mining result
  and is omitted.
-/

set_option maxRecDepth 100000

/-- A complex parameter, Go `complex128`, components modelled as rationals. -/
structure Cx where
  re : ℚ
  im : ℚ
deriving DecidableEq

/-- The zero complex value, Go `complex(0, 0)`. -/
def czero : Cx := ⟨0, 0⟩

/-- One application of the core recurrence, Go `z = z*z + c`
(complex multiplication expanded componentwise). -/
def znext (z c : Cx) : Cx :=
  ⟨z.re * z.re - z.im * z.im + c.re, z.re * z.im + z.im * z.re + c.im⟩

/-- Squared magnitude, Go `(real(z)*real(z))+(imag(z)*imag(z))`. -/
def normSq (z : Cx) : ℚ :=
  z.re * z.re + z.im * z.im

/-- Go `math.Round`: round to nearest integer, halves away from zero. -/
def goRound (q : ℚ) : Int :=
  if 0 ≤ q then ⌊q + 1/2⌋ else -⌊-q + 1/2⌋

/-- The guidemap grid, Go `type Guidemap struct`. -/
structure Guidemap where
  itsWidth : Int
  itsHeight : Int
  itsMinR : ℚ
  itsMaxR : ℚ
  itsMinI : ℚ
  itsMaxI : ℚ
  itsDelR : ℚ
  itsDelI : ℚ
  itsData : List Bool
deriving DecidableEq

/-- The two sequential clamping conditionals of `Guidemap.Mark` and
`Guidemap.Check`: `if x < 0 then x = 0`, then
`if x > dim-1 then x = dim-1`. -/
def clampIdx (x dim : Int) : Int :=
  let x1 := if x < 0 then 0 else x
  if x1 > dim - 1 then dim - 1 else x1

/-- The clamped column index computed identically at the top of both
`Guidemap.Mark` and `Guidemap.Check`:
`x := int(math.Round((real(c) - this.itsMinR) / this.itsDelR))`
followed by the two clamping conditionals. -/
def Guidemap.gmX (g : Guidemap) (c : Cx) : Int :=
  clampIdx (goRound ((c.re - g.itsMinR) / g.itsDelR)) g.itsWidth

/-- The clamped row index computed identically in both `Guidemap.Mark` and
`Guidemap.Check`, from the imaginary component. -/
def Guidemap.gmY (g : Guidemap) (c : Cx) : Int :=
  clampIdx (goRound ((c.im - g.itsMinI) / g.itsDelI)) g.itsHeight

/-- The flat index `y*this.itsWidth + x` used by both `Mark` and `Check`. -/
def Guidemap.gmIndex (g : Guidemap) (c : Cx) : Int :=
  g.gmY c * g.itsWidth + g.gmX c

/-- Go `func (this *Guidemap) Mark(c complex128)`:
`this.itsData[y*this.itsWidth+x] = true`. -/
def Guidemap.Mark (g : Guidemap) (c : Cx) : Guidemap :=
  { g with itsData := g.itsData.set (g.gmIndex c).toNat true }

/-- Go `func (this *Guidemap) Check(c complex128) bool`:
`return this.itsData[y*this.itsWidth+x]`. -/
def Guidemap.Check (g : Guidemap) (c : Cx) : Bool :=
  g.itsData.getD (g.gmIndex c).toNat false

/-- The deterministic shape set up by `GenerateGuidemap(51)` as called from
`Mine`: a 51 by 51 grid over the domain from -2 to 2 on both axes, and cell
sizes `(max-min)/width`.  The probing phase is wall-clock- and RNG-driven and
only ever sets cells to `true`, so the grid contents at the end of the build
are the parameter `data`. -/
def mineGuidemap (data : List Bool) : Guidemap :=
  { itsWidth := 51
    itsHeight := 51
    itsMinR := -2
    itsMaxR := 2
    itsMinI := -2
    itsMaxI := 2
    itsDelR := ((2 : ℚ) - (-2)) / 51
    itsDelI := ((2 : ℚ) - (-2)) / 51
    itsData := data }

/-- The all-false grid `GenerateGuidemap` starts from, before probing. -/
def freshGuidemapData : List Bool := List.replicate (51 * 51) false

/-! ## Escape-time evaluation (the inner loop of `Mine`, lines 128-167) -/

/-- The loop state of the inner `IterateZ` loop of `Mine`: the orbit value
`z`, the saved cycle-detection value `oldz`, the iteration counter `i`, and
the Brent-style countdown pair `repcheck` / `repcheckstart`. -/
structure IterState where
  z : Cx
  oldz : Cx
  i : Int
  repcheck : Int
  repcheckstart : Int
deriving DecidableEq

/-- One pass of the cycle-detection / guidemap block guarded by
`if repcheck == 0` (evaluated after the `z` update): `none` means the pass
terminates the orbit with the sentinel (either `oldz == z`, or the guidemap
veto `!guidemap.Check(c) && i%64 != 0` inside the `i%8 == 0` branch);
otherwise it returns the updated `(oldz, repcheck, repcheckstart)` triple,
with `repcheck` still to be decremented by the caller (`repcheck--` runs on
every pass in the code). -/
def repcheckStep (gm : Guidemap) (c : Cx) (s : IterState) (z : Cx) :
    Option (Cx × Int × Int) :=
  if s.repcheck = 0 then
    if s.oldz = z then none
    else if s.i % 8 = 0 then
      if gm.Check c = false ∧ s.i % 64 ≠ 0 then none
      else some (z, s.repcheckstart + 2, s.repcheckstart + 2)
    else some (z, s.repcheckstart + 1, s.repcheckstart + 1)
  else some (s.oldz, s.repcheck, s.repcheckstart)

/-- The inner `IterateZ` loop.  Each pass performs `z = z*z + c`, runs the
`repcheck` block, decrements the countdown, increments `i`, and jumps back
while `i < l && normSq z <= 4`.  The loop strictly increases `i` and keeps
running only while `i < l`, so a fuel of `l - i` passes suffices; the
fuel-exhausted branch is unreachable from the actual entry state (the
recursive call is guarded by `i + 1 < l`) and returns the current `i` like
the normal exit. -/
def iterZ (gm : Guidemap) (c : Cx) (l : Int) : Nat → IterState → Int
  | 0, s => s.i
  | fuel + 1, s =>
    let z := znext s.z c
    match repcheckStep gm c s z with
    | none => -1
    | some (oldz, rc, rcs) =>
      let i := s.i + 1
      if i < l ∧ normSq z ≤ 4 then
        iterZ gm c l fuel ⟨z, oldz, i, rc - 1, rcs⟩
      else i

/-- The entry state of the inner loop: `z = 0`, `oldz = z`, `i = 0`,
`repcheckstart = 2`, `repcheck = repcheckstart`. -/
def iterInit : IterState := ⟨czero, czero, 0, 2, 2⟩

/-- The full escape evaluation of one candidate `c` with ceiling `max`
(Go sets `l = max + 2` and the loop runs at most `l` passes). -/
def mineEscape (gm : Guidemap) (c : Cx) (max : Int) : Int :=
  iterZ gm c (max + 2) (max + 2).toNat iterInit

/-- The plain escape-time loop: the same recurrence, ceiling test and bailout
test as `iterZ`, with no cycle detection and no guidemap pruning.  This is the
independent re-computation the specification's soundness property refers to. -/
def plainIter (c : Cx) (l : Int) : Nat → Cx → Int → Int
  | 0, _, i => i
  | fuel + 1, z0, i0 =>
    let z := znext z0 c
    let i := i0 + 1
    if i < l ∧ normSq z ≤ 4 then plainIter c l fuel z i else i

/-- Plain (unshortcut) escape time of `c` with ceiling `max`: iterate
`z = z*z + c` from `z = 0` until `normSq z > 4` or `max + 2` iterations. -/
def plainEscape (c : Cx) (max : Int) : Int :=
  plainIter c (max + 2) (max + 2).toNat czero 0

/-- Instrumented copy of `iterZ` that also counts how many applications of
the core recurrence `z = z*z + c` are performed. -/
def iterZSteps (gm : Guidemap) (c : Cx) (l : Int) : Nat → IterState → Int × Nat
  | 0, s => (s.i, 0)
  | fuel + 1, s =>
    let z := znext s.z c
    match repcheckStep gm c s z with
    | none => (-1, 1)
    | some (oldz, rc, rcs) =>
      let i := s.i + 1
      if i < l ∧ normSq z ≤ 4 then
        let r := iterZSteps gm c l fuel ⟨z, oldz, i, rc - 1, rcs⟩
        (r.1, r.2 + 1)
      else (i, 1)

/-- Instrumented escape evaluation returning the result together with the
number of recurrence applications performed. -/
def mineEscapeSteps (gm : Guidemap) (c : Cx) (max : Int) : Int × Nat :=
  iterZSteps gm c (max + 2) (max + 2).toNat iterInit

/-! ## The mining loop (`Mine`, lines 91-218) -/

/-- The mutable state of the outer `CheckNewC` loop of `Mine`.  `seeds` is
the pre-allocated pack (`NewSeedpack(howmany)`, a slice of `howmany` zero
values) written left to right at `sidx`; `acc` is a ghost field recording the
accepted candidates in acceptance order (it shadows exactly the writes to
`seeds` and is used to state the acceptance-order properties). -/
structure MState where
  seeds : List Cx
  sidx : Nat
  gm : Guidemap
  found : Nat
  realmin : Int
  realmax : Int
  acc : List Cx

/-- Go `func NewSeedpack(howmany int) seedpack`:
`make([]complex128, howmany)`, a slice of `howmany` zero values. -/
def NewSeedpack (howmany : Int) : List Cx :=
  List.replicate howmany.toNat czero

/-- Processing of one candidate `c` after the inner loop returned `i`
(`IterateZDone`, lines 167-201): `if i >= min && i <= max` accept the seed
(update `realmin`/`realmax`, store `seeds[sidx] = c`, advance `sidx`,
increment `found`, `guidemap.Mark(c)`); otherwise leave the state unchanged.
The telemetry block (`relfound`/`updateInterval`/printing) only prints and
resets reporting counters; it does not affect the mining state and is
omitted. -/
def mineStep (mn mx : Int) (s : MState) (c : Cx) : MState :=
  let i := mineEscape s.gm c mx
  if mn ≤ i ∧ i ≤ mx then
    { seeds := s.seeds.set s.sidx c
      sidx := s.sidx + 1
      gm := s.gm.Mark c
      found := s.found + 1
      realmin := if i < s.realmin then i else s.realmin
      realmax := if s.realmax < i then i else s.realmax
      acc := s.acc ++ [c] }
  else s

/-- The outer `CheckNewC` loop: process the next candidate, then
`if found < howmany goto CheckNewC`, else fall through and return
`(seeds, realmin, realmax)` (plus the ghost acceptance list).  The candidate
stream is an explicit list; `none` models a stream exhausted before the quota
is met (the real loop would keep drawing candidates forever). -/
def mineRun (mn mx howmany : Int) :
    List Cx → MState → Option (List Cx × Int × Int × List Cx)
  | [], _ => none
  | c :: rest, s =>
    let s1 := mineStep mn mx s c
    if (s1.found : Int) < howmany then mineRun mn mx howmany rest s1
    else some (s1.seeds, s1.realmin, s1.realmax, s1.acc)

/-- Entry point of `Mine` after validation: build the initial state
(the fresh seedpack, `sidx = 0`, `found = 0`, `realmin, realmax = max, min`,
the freshly built guidemap) and run the outer loop.  `gmData` is the guidemap
grid contents produced by the (RNG- and wall-clock-driven)
`GenerateGuidemap(51)` build phase. -/
def mineLoop (cands : List Cx) (gmData : List Bool) (howmany mn mx : Int) :
    Option (List Cx × Int × Int × List Cx) :=
  mineRun mn mx howmany cands
    { seeds := NewSeedpack howmany
      sidx := 0
      gm := mineGuidemap gmData
      found := 0
      realmin := mx
      realmax := mn
      acc := [] }

/-- Go `func Mine(howmany, min, max int)`: the three validation panics in
order (`howmany < 1`, `max < min`, `min < 2`), then the mining loop.  A panic
is modelled as `Except.error` carrying the panic message. -/
def Mine (cands : List Cx) (gmData : List Bool) (howmany mn mx : Int) :
    Except String (Option (List Cx × Int × Int × List Cx)) :=
  if howmany < 1 then .error "Number of seeds sought is less than one."
  else if mx < mn then .error "Maximum seed depth is less than minimum seed depth."
  else if mn < 2 then .error "Minimum seed depth is less than 2."
  else .ok (mineLoop cands gmData howmany mn mx)

/-! ## Guidemap clamping lemmas -/

/-- Clamping yields a value in `[0, dim-1]` whenever `dim` is positive,
whatever the rounded input. -/
theorem clampIdx_bounds (x dim : Int) (hdim : 0 < dim) :
    0 ≤ clampIdx x dim ∧ clampIdx x dim ≤ dim - 1 := by
  simp only [clampIdx]
  split_ifs <;> omega

/-- The flat index `y*width + x` computed by `Mark` and `Check` lies in
`[0, width*height)` for any input point, in or out of the domain. -/
theorem gmIndex_bounds (g : Guidemap) (c : Cx)
    (hw : 0 < g.itsWidth) (hh : 0 < g.itsHeight) :
    0 ≤ g.gmIndex c ∧ g.gmIndex c < g.itsWidth * g.itsHeight := by
  obtain ⟨hx0, hx1⟩ := clampIdx_bounds (goRound ((c.re - g.itsMinR) / g.itsDelR)) g.itsWidth hw
  obtain ⟨hy0, hy1⟩ := clampIdx_bounds (goRound ((c.im - g.itsMinI) / g.itsDelI)) g.itsHeight hh
  unfold Guidemap.gmIndex Guidemap.gmX Guidemap.gmY
  constructor
  · positivity
  · nlinarith [hx0, hx1, hy0, hy1, hw, hh]

/-- Writing then reading the same index of a list yields the written value
when the index is in bounds. -/
theorem getD_set_self (l : List Bool) (n : Nat) (h : n < l.length) :
    (l.set n true).getD n false = true := by
  induction l generalizing n with
  | nil => simp at h
  | cons b t ih =>
    cases n with
    | zero => rfl
    | succ m =>
      simp only [List.set, List.getD, List.get?, List.length_cons] at *
      exact ih m (by omega)

/-- C9: for every input point, including points outside the domain and at
domain corners, the coordinate mapping shared by `Guidemap.Mark` and
`Guidemap.Check` (normalize, round to nearest, clamp into
`[0,width-1]x[0,height-1]`) produces a flat index `y*width + x` within the
bounds of the grid array, so no out-of-range access occurs; `Mark` writes
in place and preserves the grid size. -/
theorem guidemap_clamped_index_in_bounds (g : Guidemap) (c : Cx)
    (hw : 0 < g.itsWidth) (hh : 0 < g.itsHeight)
    (hlen : g.itsData.length = (g.itsWidth * g.itsHeight).toNat) :
    0 ≤ g.gmIndex c ∧ (g.gmIndex c).toNat < g.itsData.length ∧
    (g.Mark c).itsData.length = g.itsData.length := by
  obtain ⟨h0, h1⟩ := gmIndex_bounds g c hw hh
  refine ⟨h0, by omega, ?_⟩
  simp [Guidemap.Mark]

/-- Witness for C9 at the domain corner `(2, 2)` of the 51 by 51 guidemap
built by `Mine`. -/
theorem guidemap_clamped_index_in_bounds_witness :
    0 ≤ (mineGuidemap freshGuidemapData).gmIndex ⟨2, 2⟩ ∧
    ((mineGuidemap freshGuidemapData).gmIndex ⟨2, 2⟩).toNat <
      (mineGuidemap freshGuidemapData).itsData.length ∧
    ((mineGuidemap freshGuidemapData).Mark ⟨2, 2⟩).itsData.length =
      (mineGuidemap freshGuidemapData).itsData.length :=
  guidemap_clamped_index_in_bounds (mineGuidemap freshGuidemapData) ⟨2, 2⟩
    (by decide) (by decide) (by simp [mineGuidemap, freshGuidemapData])

/-- C10: `Check` returns `true` on any point immediately after `Mark` on the
same point, because both use the identical normalize-round-clamp coordinate
mapping (`gmIndex`). -/
theorem guidemap_check_after_mark (g : Guidemap) (c : Cx)
    (hw : 0 < g.itsWidth) (hh : 0 < g.itsHeight)
    (hlen : g.itsData.length = (g.itsWidth * g.itsHeight).toNat) :
    (g.Mark c).Check c = true := by
  obtain ⟨h0, h1⟩ := gmIndex_bounds g c hw hh
  show (g.itsData.set (g.gmIndex c).toNat true).getD
      ((g.Mark c).gmIndex c).toNat false = true
  have hidx : (g.Mark c).gmIndex c = g.gmIndex c := rfl
  rw [hidx]
  exact getD_set_self _ _ (by omega)

/-- Witness for C10 at the out-of-domain point `(-100, 100)` of the 51 by 51
guidemap built by `Mine`. -/
theorem guidemap_check_after_mark_witness :
    ((mineGuidemap freshGuidemapData).Mark ⟨-100, 100⟩).Check ⟨-100, 100⟩ = true :=
  guidemap_check_after_mark (mineGuidemap freshGuidemapData) ⟨-100, 100⟩
    (by decide) (by decide) (by simp [mineGuidemap, freshGuidemapData])

/-! ## Relating the shortcut evaluator to the plain escape loop -/

/-- From any loop state, the shortcut loop either exits with the rejection
sentinel (cycle detected or guidemap-pruned) or returns exactly what the
plain escape loop returns from the same `z` and `i`: the heuristics only ever
terminate the orbit early, they never alter the orbit or the counter. -/
theorem iterZ_eq_plain (gm : Guidemap) (c : Cx) (l : Int) :
    ∀ (fuel : Nat) (s : IterState),
      iterZ gm c l fuel s = -1 ∨ iterZ gm c l fuel s = plainIter c l fuel s.z s.i := by
  intro fuel
  induction fuel with
  | zero => exact fun s => Or.inr rfl
  | succ n ih =>
    intro s
    rcases hstep : repcheckStep gm c s (znext s.z c) with _ | ⟨oldz, rc, rcs⟩
    · left
      simp only [iterZ, hstep]
    · by_cases hcond : s.i + 1 < l ∧ normSq (znext s.z c) ≤ 4
      · have hrec : iterZ gm c l (n + 1) s =
            iterZ gm c l n ⟨znext s.z c, oldz, s.i + 1, rc - 1, rcs⟩ := by
          simp only [iterZ, hstep, if_pos hcond]
        have hrec2 : plainIter c l (n + 1) s.z s.i =
            plainIter c l n (znext s.z c) (s.i + 1) := by
          simp only [plainIter, if_pos hcond]
        rw [hrec, hrec2]
        exact ih ⟨znext s.z c, oldz, s.i + 1, rc - 1, rcs⟩
      · right
        simp only [iterZ, plainIter, hstep, if_neg hcond]

/-- The full evaluator either rejects with `-1` or agrees with the plain
(unshortcut) escape time. -/
theorem mineEscape_eq_plain (gm : Guidemap) (c : Cx) (mx : Int) :
    mineEscape gm c mx = -1 ∨ mineEscape gm c mx = plainEscape c mx :=
  iterZ_eq_plain gm c (mx + 2) (mx + 2).toNat iterInit

/-- The instrumented evaluator computes the same result as `iterZ`. -/
theorem iterZSteps_fst (gm : Guidemap) (c : Cx) (l : Int) :
    ∀ (fuel : Nat) (s : IterState),
      (iterZSteps gm c l fuel s).1 = iterZ gm c l fuel s := by
  intro fuel
  induction fuel with
  | zero => exact fun s => rfl
  | succ n ih =>
    intro s
    rcases hstep : repcheckStep gm c s (znext s.z c) with _ | ⟨oldz, rc, rcs⟩
    · simp only [iterZSteps, iterZ, hstep]
    · by_cases hcond : s.i + 1 < l ∧ normSq (znext s.z c) ≤ 4
      · have h1 : (iterZSteps gm c l (n + 1) s).1 =
            (iterZSteps gm c l n ⟨znext s.z c, oldz, s.i + 1, rc - 1, rcs⟩).1 := by
          simp only [iterZSteps, hstep, if_pos hcond]
        have h2 : iterZ gm c l (n + 1) s =
            iterZ gm c l n ⟨znext s.z c, oldz, s.i + 1, rc - 1, rcs⟩ := by
          simp only [iterZ, hstep, if_pos hcond]
        rw [h1, h2]
        exact ih _
      · simp only [iterZSteps, iterZ, hstep, if_neg hcond]

/-- The number of recurrence applications performed from a state with
counter `i` is at most `l - i` (and at least one pass always runs). -/
theorem iterZSteps_le (gm : Guidemap) (c : Cx) (l : Int) :
    ∀ (fuel : Nat) (s : IterState),
      (iterZSteps gm c l fuel s).2 ≤ max (l - s.i).toNat 1 := by
  intro fuel
  induction fuel with
  | zero => exact fun s => by simp [iterZSteps]
  | succ n ih =>
    intro s
    rcases hstep : repcheckStep gm c s (znext s.z c) with _ | ⟨oldz, rc, rcs⟩
    · simp only [iterZSteps, hstep]
      omega
    · by_cases hcond : s.i + 1 < l ∧ normSq (znext s.z c) ≤ 4
      · have h1 : (iterZSteps gm c l (n + 1) s).2 =
            (iterZSteps gm c l n ⟨znext s.z c, oldz, s.i + 1, rc - 1, rcs⟩).2 + 1 := by
          simp only [iterZSteps, hstep, if_pos hcond]
        have h2 := ih ⟨znext s.z c, oldz, s.i + 1, rc - 1, rcs⟩
        have h3 : s.i + 1 < l := hcond.1
        simp only at h2
        omega
      · simp only [iterZSteps, hstep, if_neg hcond]
        omega

/-- C4: for every candidate point and every ceiling `max >= 0`, a single
escape evaluation performs at most `max + 2` applications of the core
recurrence `z = z*z + c` before terminating (by escape, cycle detection,
guidemap pruning, or exhausting the ceiling); the instrumented count agrees
with the result of the actual evaluator. -/
theorem mineEscape_recurrence_bound (gm : Guidemap) (c : Cx) (mx : Int)
    (hmx : 0 ≤ mx) :
    (mineEscapeSteps gm c mx).1 = mineEscape gm c mx ∧
    ((mineEscapeSteps gm c mx).2 : Int) ≤ mx + 2 := by
  constructor
  · exact iterZSteps_fst gm c (mx + 2) (mx + 2).toNat iterInit
  · have h := iterZSteps_le gm c (mx + 2) (mx + 2).toNat iterInit
    have hi : iterInit.i = 0 := rfl
    rw [hi] at h
    have he : mineEscapeSteps gm c mx =
        iterZSteps gm c (mx + 2) (mx + 2).toNat iterInit := rfl
    rw [he]
    omega

/-- Witness for C4 at `c = 2`, `max = 4`. -/
theorem mineEscape_recurrence_bound_witness :
    (mineEscapeSteps (mineGuidemap freshGuidemapData) ⟨2, 0⟩ 4).1 =
      mineEscape (mineGuidemap freshGuidemapData) ⟨2, 0⟩ 4 ∧
    ((mineEscapeSteps (mineGuidemap freshGuidemapData) ⟨2, 0⟩ 4).2 : Int) ≤ 4 + 2 :=
  mineEscape_recurrence_bound (mineGuidemap freshGuidemapData) ⟨2, 0⟩ 4 (by decide)

/-- C2 counterexample: for the candidate `-3/2` (a real parameter in the
Mandelbrot set whose exact orbit stays bounded and never exactly repeats
within the window) with ceiling `max = 10` and the fresh all-false guidemap,
the orbit neither escapes (the plain unshortcut run also reaches the ceiling)
nor is cycle-terminated nor guidemap-pruned, yet the evaluation returns
`12 = max + 2` and not the rejection sentinel `-1` the claim requires. -/
theorem escape_ceiling_counterexample :
    plainEscape ⟨-3/2, 0⟩ 10 = 12 ∧
    mineEscape (mineGuidemap freshGuidemapData) ⟨-3/2, 0⟩ 10 = 12 ∧
    mineEscape (mineGuidemap freshGuidemapData) ⟨-3/2, 0⟩ 10 ≠ -1 := by
  refine ⟨?_, ?_, ?_⟩ <;> with_unfolding_all decide

/-- C2 (amended): a candidate whose orbit does not escape within the ceiling
is either rejected with the sentinel `-1` (cycle detection or guidemap
pruning) or exits the loop with depth `max + 2`, a value greater than `max`;
and a depth accepted under a valid configuration (a value in `[min, max]`
with `2 <= min <= max`) is never `-1` and never `max + 2`, so neither
rejection value is ever stored as an accepted seed's depth. -/
theorem mineEscape_ceiling_behavior (gm : Guidemap) (c : Cx) (mn mx : Int) :
    (plainEscape c mx = mx + 2 →
      mineEscape gm c mx = -1 ∨ mineEscape gm c mx = mx + 2) ∧
    (2 ≤ mn → mn ≤ mx → mn ≤ mineEscape gm c mx → mineEscape gm c mx ≤ mx →
      mineEscape gm c mx ≠ -1 ∧ mineEscape gm c mx ≠ mx + 2) := by
  constructor
  · intro h
    rcases mineEscape_eq_plain gm c mx with h1 | h1
    · exact Or.inl h1
    · exact Or.inr (by rw [h1, h])
  · intro h2 h3 h4 h5
    refine ⟨fun hEq => ?_, fun hEq => ?_⟩
    · rw [hEq] at h4; omega
    · rw [hEq] at h5; omega

/-- Witness for the amended C2 at `c = -3/2`, `max = 10`, fresh guidemap. -/
theorem mineEscape_ceiling_behavior_witness :
    mineEscape (mineGuidemap freshGuidemapData) ⟨-3/2, 0⟩ 10 = -1 ∨
    mineEscape (mineGuidemap freshGuidemapData) ⟨-3/2, 0⟩ 10 = 10 + 2 :=
  (mineEscape_ceiling_behavior (mineGuidemap freshGuidemapData) ⟨-3/2, 0⟩ 2 10).1
    (by with_unfolding_all decide)

/-! ## The outer-loop invariant -/

/-- Setting the element right after a prefix `a` (the next free slot of the
pre-allocated pack) turns the first remaining zero slot into `c`. -/
theorem set_append_replicate (a : List Cx) (k : Nat) (c : Cx) (hk : 0 < k) :
    (a ++ List.replicate k czero).set a.length c =
      (a ++ [c]) ++ List.replicate (k - 1) czero := by
  induction a with
  | nil =>
    cases k with
    | zero => omega
    | succ m => simp [List.replicate_succ]
  | cons h t ih =>
    simpa using ih

/-- Invariant of the outer `CheckNewC` loop: the write cursor and the
acceptance counter both equal the number of accepted seeds, the
pre-allocated pack is the accepted seeds (in acceptance order) followed by
the untouched zero slots, and every accepted seed has a plain escape depth
in `[min, max]`. -/
def MInv (howmany mn mx : Int) (s : MState) : Prop :=
  s.sidx = s.acc.length ∧
  s.found = s.acc.length ∧
  s.seeds = s.acc ++ List.replicate (howmany.toNat - s.acc.length) czero ∧
  (∀ x ∈ s.acc, mn ≤ plainEscape x mx ∧ plainEscape x mx ≤ mx)

/-- Processing one candidate preserves the invariant and grows the
acceptance counter by at most one. -/
theorem mineStep_inv (howmany mn mx : Int) (s : MState) (c : Cx)
    (hmn : 2 ≤ mn) (hinv : MInv howmany mn mx s)
    (hlt : (s.found : Int) < howmany) :
    MInv howmany mn mx (mineStep mn mx s c) ∧
    (mineStep mn mx s c).found ≤ s.found + 1 ∧
    s.found ≤ (mineStep mn mx s c).found := by
  obtain ⟨h1, h2, h3, h4⟩ := hinv
  by_cases hacc : mn ≤ mineEscape s.gm c mx ∧ mineEscape s.gm c mx ≤ mx
  · have hplain : mn ≤ plainEscape c mx ∧ plainEscape c mx ≤ mx := by
      rcases mineEscape_eq_plain s.gm c mx with he | he
      · rw [he] at hacc; omega
      · rw [he] at hacc; exact hacc
    have hk : 0 < howmany.toNat - s.acc.length := by omega
    simp only [mineStep, if_pos hacc]
    refine ⟨⟨?_, ?_, ?_, ?_⟩, ?_, ?_⟩
    · simp [h1]
    · simp [h2]
    · rw [h3, h1]
      rw [set_append_replicate s.acc _ c hk]
      simp only [List.length_append, List.length_cons, List.length_nil]
      congr 1
    · intro x hx
      rcases List.mem_append.mp hx with hx | hx
      · exact h4 x hx
      · rw [List.mem_singleton.mp hx]
        exact hplain
    · omega
    · omega
  · simp only [mineStep, if_neg hacc]
    exact ⟨⟨h1, h2, h3, h4⟩, by omega, by omega⟩

/-- A successful pass of the outer loop returns the ghost acceptance list as
the pack, with exactly `howmany` accepted seeds, all of plain escape depth in
`[min, max]`. -/
theorem mineRun_spec (howmany mn mx : Int) (hmn : 2 ≤ mn) :
    ∀ (cands : List Cx) (s : MState) (pack acc : List Cx) (rmn rmx : Int),
      MInv howmany mn mx s → (s.found : Int) < howmany →
      mineRun mn mx howmany cands s = some (pack, rmn, rmx, acc) →
      pack = acc ∧ (acc.length : Int) = howmany ∧
      (∀ x ∈ acc, mn ≤ plainEscape x mx ∧ plainEscape x mx ≤ mx) := by
  intro cands
  induction cands with
  | nil =>
    intro s pack acc rmn rmx hinv hlt h
    simp [mineRun] at h
  | cons c rest ih =>
    intro s pack acc rmn rmx hinv hlt h
    obtain ⟨hstep, hgrow, hmono⟩ := mineStep_inv howmany mn mx s c hmn hinv hlt
    simp only [mineRun] at h
    by_cases hc : ((mineStep mn mx s c).found : Int) < howmany
    · rw [if_pos hc] at h
      exact ih (mineStep mn mx s c) pack acc rmn rmx hstep hc h
    · rw [if_neg hc] at h
      simp only [Option.some.injEq, Prod.mk.injEq] at h
      obtain ⟨hseeds, _, _, hacc⟩ := h
      obtain ⟨hi1, hi2, hi3, hi4⟩ := hstep
      have hlen : ((mineStep mn mx s c).acc.length : Int) = howmany := by omega
      have hrep : howmany.toNat - (mineStep mn mx s c).acc.length = 0 := by omega
      rw [hrep] at hi3
      simp only [List.replicate_zero, List.append_nil] at hi3
      subst hacc
      refine ⟨by rw [← hseeds, hi3], hlen, hi4⟩

/-- Any successful run of `Mine` under a valid configuration: the returned
pack is the ghost acceptance list, it holds exactly `howmany` seeds, and
every one of them has plain (unshortcut) escape depth in `[min, max]`. -/
theorem Mine_ok_properties (cands : List Cx) (gmData : List Bool)
    (howmany mn mx : Int) (h1 : 1 ≤ howmany) (h2 : 2 ≤ mn) (h3 : mn ≤ mx)
    (pack acc : List Cx) (rmn rmx : Int)
    (hrun : Mine cands gmData howmany mn mx = .ok (some (pack, rmn, rmx, acc))) :
    pack = acc ∧ (acc.length : Int) = howmany ∧
    (∀ x ∈ acc, mn ≤ plainEscape x mx ∧ plainEscape x mx ≤ mx) := by
  unfold Mine at hrun
  rw [if_neg (by omega), if_neg (by omega), if_neg (by omega)] at hrun
  simp only [Except.ok.injEq] at hrun
  unfold mineLoop at hrun
  rcases hopt : mineRun mn mx howmany cands
      { seeds := NewSeedpack howmany, sidx := 0, gm := mineGuidemap gmData,
        found := 0, realmin := mx, realmax := mn, acc := [] } with _ | r
  · rw [hopt] at hrun; cases hrun
  · rw [hopt] at hrun
    obtain rfl : r = (pack, rmn, rmx, acc) := by
      cases hrun; rfl
    refine mineRun_spec howmany mn mx h2 cands _ pack acc rmn rmx ?_
      (by show ((0 : Nat) : Int) < howmany; omega) hopt
    refine ⟨rfl, rfl, ?_, by simp⟩
    simp [NewSeedpack]

/-- C1: soundness of acceptance.  For every run of `Mine` with a valid
configuration (`howmany >= 1`, `2 <= min <= max`), every seed accepted into
the returned seedpack has a plain escape time — independently recomputed by
iterating `z = z*z + c` from `0` until `normSq z > 4` or `max + 2`
iterations, with no cycle detection and no guidemap pruning — in
`[min, max]`: the heuristics never cause a false acceptance. -/
theorem mine_acceptance_sound (cands : List Cx) (gmData : List Bool)
    (howmany mn mx : Int) (h1 : 1 ≤ howmany) (h2 : 2 ≤ mn) (h3 : mn ≤ mx)
    (pack acc : List Cx) (rmn rmx : Int)
    (hrun : Mine cands gmData howmany mn mx = .ok (some (pack, rmn, rmx, acc))) :
    ∀ x ∈ pack, mn ≤ plainEscape x mx ∧ plainEscape x mx ≤ mx := by
  obtain ⟨hpa, _, hsound⟩ :=
    Mine_ok_properties cands gmData howmany mn mx h1 h2 h3 pack acc rmn rmx hrun
  rw [hpa]
  exact hsound

/-- Witness for C1: the one-candidate run accepting `c = 2` under
configuration `howmany = 1`, `min = 2`, `max = 4`; its plain escape depth is
in `[2, 4]`. -/
theorem mine_acceptance_sound_witness :
    2 ≤ plainEscape ⟨2, 0⟩ 4 ∧ plainEscape ⟨2, 0⟩ 4 ≤ 4 :=
  mine_acceptance_sound [⟨2, 0⟩] freshGuidemapData 1 2 4
    (by decide) (by decide) (by decide) [⟨2, 0⟩] [⟨2, 0⟩] 2 2
    (by with_unfolding_all rfl) ⟨2, 0⟩ (by simp)

/-- C5: with a valid configuration, when mining terminates the finished
seedpack is exactly the ghost list of accepted seeds in acceptance order and
has length exactly `howmany`; the loop hands back a result only upon
reaching exactly `howmany` accepted seeds. -/
theorem mine_pack_quota (cands : List Cx) (gmData : List Bool)
    (howmany mn mx : Int) (h1 : 1 ≤ howmany) (h2 : 2 ≤ mn) (h3 : mn ≤ mx)
    (pack acc : List Cx) (rmn rmx : Int)
    (hrun : Mine cands gmData howmany mn mx = .ok (some (pack, rmn, rmx, acc))) :
    pack = acc ∧ (pack.length : Int) = howmany := by
  obtain ⟨hpa, hlen, _⟩ :=
    Mine_ok_properties cands gmData howmany mn mx h1 h2 h3 pack acc rmn rmx hrun
  exact ⟨hpa, by rw [hpa]; exact hlen⟩

/-- Witness for C5: the same one-candidate run fills its single slot. -/
theorem mine_pack_quota_witness :
    ([⟨2, 0⟩] : List Cx) = [⟨2, 0⟩] ∧ (([⟨2, 0⟩] : List Cx).length : Int) = 1 :=
  mine_pack_quota [⟨2, 0⟩] freshGuidemapData 1 2 4
    (by decide) (by decide) (by decide) [⟨2, 0⟩] [⟨2, 0⟩] 2 2
    (by with_unfolding_all rfl)

/-- C8: configuration validation.  For an invalid configuration
(`howmany < 1`, or `max < min`, or `min < 2`) `Mine` fails with a fatal
configuration error before any sampling — the outcome is independent of the
candidate stream, so no candidate is drawn, no seedpack entry is written and
no artifact is produced; for a valid configuration no configuration error is
raised. -/
theorem mine_validation (cands : List Cx) (gmData : List Bool)
    (howmany mn mx : Int) :
    (howmany < 1 ∨ mx < mn ∨ mn < 2 →
      (∃ msg, Mine cands gmData howmany mn mx = .error msg) ∧
      Mine cands gmData howmany mn mx = Mine [] gmData howmany mn mx) ∧
    (1 ≤ howmany → 2 ≤ mn → mn ≤ mx →
      Mine cands gmData howmany mn mx =
        .ok (mineLoop cands gmData howmany mn mx)) := by
  constructor
  · intro hbad
    unfold Mine
    split_ifs <;> first | exact ⟨⟨_, rfl⟩, rfl⟩ | omega
  · intro ha hb hc
    unfold Mine
    rw [if_neg (by omega), if_neg (by omega), if_neg (by omega)]

/-- Witness for C8 at the invalid configuration `howmany = 0`. -/
theorem mine_validation_witness :
    (∃ msg, Mine [] freshGuidemapData 0 2 4 = .error msg) ∧
    Mine [] freshGuidemapData 0 2 4 = Mine [] freshGuidemapData 0 2 4 :=
  (mine_validation [] freshGuidemapData 0 2 4).1 (Or.inl (by decide))

/-! ## Seedpack sort (`seedpack.Sort`, lines 228-237) -/

/-- The comparison closure passed to `sort.SliceStable`:
`if real(i) != real(j) then real(i) < real(j) else imag(i) < imag(j)`. -/
def seedLess (p q : Cx) : Bool :=
  if p.re ≠ q.re then decide (p.re < q.re) else decide (p.im < q.im)

/-- The precedence relation induced by the comparison: `p` may be placed no
later than `q` exactly when `q` is not strictly before `p`.  A stable sort
driven by a strict-weak-order `less` orders its output by this relation. -/
def seedPrec (p q : Cx) : Prop := seedLess q p = false

instance : DecidableRel seedPrec := fun p q => by
  unfold seedPrec
  infer_instance

/-- Go `func (this seedpack) Sort() seedpack`, a stable sort by `seedLess`:
modelled by the stable `insertionSort`, which inserts each element before the
first element of the sorted suffix that is not strictly before it. -/
def seedpackSort (sp : List Cx) : List Cx := List.insertionSort seedPrec sp

/-- The precedence relation is exactly the lexicographic
(real, then imaginary) non-strict order. -/
theorem seedPrec_iff (p q : Cx) :
    seedPrec p q ↔ (p.re < q.re ∨ (p.re = q.re ∧ p.im ≤ q.im)) := by
  unfold seedPrec seedLess
  by_cases h : q.re = p.re
  · simp [h, not_lt]
  · simp only [if_pos h, decide_eq_false_iff_not, not_lt]
    constructor
    · intro hle
      exact Or.inl (lt_of_le_of_ne hle (fun e => h e.symm))
    · rintro (hlt | ⟨he, _⟩)
      · exact le_of_lt hlt
      · exact absurd he.symm h

/-- The precedence relation is total. -/
theorem seedPrec_total : ∀ p q : Cx, seedPrec p q ∨ seedPrec q p := by
  intro p q
  rw [seedPrec_iff, seedPrec_iff]
  by_cases h : p.re = q.re
  · rcases le_total p.im q.im with him | him
    · exact Or.inl (Or.inr ⟨h, him⟩)
    · exact Or.inr (Or.inr ⟨h.symm, him⟩)
  · rcases lt_or_gt_of_ne h with hlt | hgt
    · exact Or.inl (Or.inl hlt)
    · exact Or.inr (Or.inl hgt)

/-- The precedence relation is transitive. -/
theorem seedPrec_trans : ∀ p q r : Cx, seedPrec p q → seedPrec q r → seedPrec p r := by
  intro p q r hpq hqr
  rw [seedPrec_iff] at hpq hqr ⊢
  rcases hpq with h1 | ⟨h1, h1i⟩ <;> rcases hqr with h2 | ⟨h2, h2i⟩
  · exact Or.inl (lt_trans h1 h2)
  · exact Or.inl (h2 ▸ h1)
  · exact Or.inl (h1 ▸ h2)
  · exact Or.inr ⟨h1.trans h2, le_trans h1i h2i⟩

/-- C6: after `Sort` the seed sequence is non-decreasing by real part and,
among equal real parts, non-decreasing by imaginary part; the output is a
permutation of the input (a reordering, stability being how the model
resolves full ties); and applying `Sort` twice yields exactly the same
sequence as applying it once. -/
theorem seedpackSort_spec (sp : List Cx) :
    List.Pairwise (fun p q => p.re < q.re ∨ (p.re = q.re ∧ p.im ≤ q.im))
      (seedpackSort sp) ∧
    (seedpackSort sp).Perm sp ∧
    seedpackSort (seedpackSort sp) = seedpackSort sp := by
  haveI : IsTotal Cx seedPrec := ⟨seedPrec_total⟩
  haveI : IsTrans Cx seedPrec := ⟨fun a b c => seedPrec_trans a b c⟩
  have hs := List.sorted_insertionSort seedPrec sp
  refine ⟨?_, List.perm_insertionSort seedPrec sp, ?_⟩
  · exact hs.imp (fun h => (seedPrec_iff _ _).mp h)
  · exact List.Sorted.insertionSort_eq hs

/-! ## Serialization (`SaveEMSFile`, lines 58-87)

At byte level a `float64` is its 64-bit pattern: `binary.Write` with
little-endian order emits exactly the eight bytes of the pattern, so the
byte-layout and round-trip claims are stated on patterns (`Nat` values below
`2 ^ 64`).  The sort comparisons are the IEEE-754 binary64 comparisons,
implemented on bit patterns. -/

/-- IEEE-754 binary64 NaN test on a bit pattern: exponent field all ones and
nonzero mantissa. -/
def f64IsNaN (a : Nat) : Bool :=
  decide (a / 2 ^ 52 % 2 ^ 11 = 2 ^ 11 - 1 ∧ a % 2 ^ 52 ≠ 0)

/-- IEEE-754 `<` on binary64 bit patterns (the Go `<` on `float64`): false
when either operand is NaN, both zeros compare equal, otherwise compare by
sign and then by magnitude. -/
def f64lt (a b : Nat) : Bool :=
  if f64IsNaN a || f64IsNaN b then false
  else
    let sa := a / 2 ^ 63
    let sb := b / 2 ^ 63
    let ma := a % 2 ^ 63
    let mb := b % 2 ^ 63
    if ma = 0 ∧ mb = 0 then false
    else if sa ≠ sb then decide (sa = 1)
    else if sa = 1 then decide (mb < ma)
    else decide (ma < mb)

/-- IEEE-754 `!=` on binary64 bit patterns (the Go `!=` on `float64`): true
when either operand is NaN, the two zeros are equal, otherwise the patterns
of equal non-NaN values coincide. -/
def f64ne (a b : Nat) : Bool :=
  if f64IsNaN a || f64IsNaN b then true
  else if a % 2 ^ 63 = 0 ∧ b % 2 ^ 63 = 0 then false
  else decide (a ≠ b)

/-- The `seedpack.Sort` comparison closure on bit-pattern seeds:
`if real(i) != real(j) then real(i) < real(j) else imag(i) < imag(j)`. -/
def seedLessB (p q : Nat × Nat) : Bool :=
  if f64ne p.1 q.1 then f64lt p.1 q.1 else f64lt p.2 q.2

/-- The induced precedence relation, as for the rational-level sort. -/
def seedPrecB (p q : Nat × Nat) : Prop := seedLessB q p = false

instance : DecidableRel seedPrecB := fun p q => by
  unfold seedPrecB
  infer_instance

/-- `seedpack.Sort` at bit-pattern level: the stable sort by `seedLessB`. -/
def sortSeedsB (sp : List (Nat × Nat)) : List (Nat × Nat) :=
  List.insertionSort seedPrecB sp

/-- The eight little-endian bytes `binary.Write(buf, binary.LittleEndian, f)`
emits for one `float64` bit pattern. -/
def f64le (n : Nat) : List Nat :=
  [n % 256, n / 2 ^ 8 % 256, n / 2 ^ 16 % 256, n / 2 ^ 24 % 256,
   n / 2 ^ 32 % 256, n / 2 ^ 40 % 256, n / 2 ^ 48 % 256, n / 2 ^ 56 % 256]

/-- The encoded payload: for each seed in order, its real then its imaginary
component, eight little-endian bytes each, with no padding or separators. -/
def payloadBytes : List (Nat × Nat) → List Nat
  | [] => []
  | s :: rest => f64le s.1 ++ f64le s.2 ++ payloadBytes rest

/-- The ASCII bytes of the header literal written by `SaveEMSFile`: at-sign,
D, M, dot, E, M, S, opening brace, the 22 bytes of codex.apeirography.art,
closing brace, space — 32 bytes in total. -/
def emsHeader : List Nat :=
  [64, 68, 77, 46, 69, 77, 83, 123, 99, 111, 100, 101, 120, 46, 97, 112,
   101, 105, 114, 111, 103, 114, 97, 112, 104, 121, 46, 97, 114, 116, 125, 32]

/-- Go `func SaveEMSFile(seeds seedpack, min, max int)`, at byte level: sort
the seeds, write the payload into a buffer, hash the buffer bytes with MD5,
reset the buffer, write the header literal and then the payload again, and
write the buffer out.  Returns the output-file bytes and the digest.
`md5Sum` abstracts the `crypto/md5` library function, external to the
repository; the claims concern only which bytes are hashed. -/
def SaveEMSFile (md5Sum : List Nat → List Nat) (seeds : List (Nat × Nat)) :
    List Nat × List Nat :=
  let sorted := sortSeedsB seeds
  let buf : List Nat := []
  let buf := buf ++ payloadBytes sorted
  let digest := md5Sum buf
  let buf : List Nat := []
  let buf := buf ++ emsHeader
  let buf := buf ++ payloadBytes sorted
  (buf, digest)

/-- Recombining eight little-endian bytes. -/
def leVal (b0 b1 b2 b3 b4 b5 b6 b7 : Nat) : Nat :=
  b0 + 2 ^ 8 * b1 + 2 ^ 16 * b2 + 2 ^ 24 * b3 + 2 ^ 32 * b4 +
    2 ^ 40 * b5 + 2 ^ 48 * b6 + 2 ^ 56 * b7

/-- Decoding a payload: read successive pairs of 64-bit little-endian
values; trailing bytes that do not form a full 16-byte record are ignored. -/
def decodePayload : List Nat → List (Nat × Nat)
  | b0 :: b1 :: b2 :: b3 :: b4 :: b5 :: b6 :: b7 ::
      c0 :: c1 :: c2 :: c3 :: c4 :: c5 :: c6 :: c7 :: rest =>
    (leVal b0 b1 b2 b3 b4 b5 b6 b7, leVal c0 c1 c2 c3 c4 c5 c6 c7) ::
      decodePayload rest
  | _ => []

/-- Recombining the eight emitted bytes of a pattern below `2 ^ 64` yields
the pattern back. -/
theorem leVal_f64le (n : Nat) (h : n < 2 ^ 64) :
    leVal (n % 256) (n / 2 ^ 8 % 256) (n / 2 ^ 16 % 256) (n / 2 ^ 24 % 256)
      (n / 2 ^ 32 % 256) (n / 2 ^ 40 % 256) (n / 2 ^ 48 % 256)
      (n / 2 ^ 56 % 256) = n := by
  unfold leVal
  omega

/-- Decoding inverts encoding on any list of in-range patterns. -/
theorem decodePayload_payloadBytes (L : List (Nat × Nat))
    (h : ∀ s ∈ L, s.1 < 2 ^ 64 ∧ s.2 < 2 ^ 64) :
    decodePayload (payloadBytes L) = L := by
  induction L with
  | nil => rfl
  | cons s rest ih =>
    obtain ⟨h1, h2⟩ := h s (List.mem_cons_self s rest)
    have hrest := fun x hx => h x (List.mem_cons_of_mem s hx)
    simp only [payloadBytes, f64le, List.cons_append, List.nil_append,
      decodePayload]
    rw [leVal_f64le s.1 h1, leVal_f64le s.2 h2]
    simpa using ih hrest

/-- C3 (amended): the serialized artifact is exactly the fixed 32-byte ASCII
header literal immediately followed by the encoded payload (each sorted
seed's real then imaginary component, eight little-endian bytes each, no
separators), and the content digest is computed over exactly the unheadered
payload. -/
theorem saveEMS_layout (md5Sum : List Nat → List Nat)
    (seeds : List (Nat × Nat)) :
    (SaveEMSFile md5Sum seeds).1 =
      emsHeader ++ payloadBytes (sortSeedsB seeds) ∧
    (SaveEMSFile md5Sum seeds).2 = md5Sum (payloadBytes (sortSeedsB seeds)) ∧
    emsHeader.length = 32 :=
  ⟨rfl, rfl, rfl⟩

/-- C3 counterexample to the stated 33-byte header: for the empty seedpack
the whole artifact is just the header and has 32 bytes, not 33. -/
theorem ems_header_length_counterexample :
    (SaveEMSFile (fun bs => bs) []).1.length = 32 ∧
    (SaveEMSFile (fun bs => bs) []).1.length ≠ 33 := by
  decide

/-- C7 (amended): skipping the fixed 32-byte header of the serialized
artifact and reading successive pairs of 64-bit little-endian values
reproduces the sorted seed list exactly, pattern for pattern. -/
theorem saveEMS_roundtrip (md5Sum : List Nat → List Nat)
    (seeds : List (Nat × Nat))
    (h : ∀ s ∈ seeds, s.1 < 2 ^ 64 ∧ s.2 < 2 ^ 64) :
    decodePayload ((SaveEMSFile md5Sum seeds).1.drop 32) = sortSeedsB seeds := by
  have hdrop : (SaveEMSFile md5Sum seeds).1.drop 32 =
      payloadBytes (sortSeedsB seeds) := by
    show ((emsHeader ++ payloadBytes (sortSeedsB seeds)).drop 32) = _
    have h32 : (32 : Nat) = emsHeader.length := rfl
    rw [h32]
    exact List.drop_left _ _
  rw [hdrop]
  refine decodePayload_payloadBytes _ (fun s hs => h s ?_)
  exact (List.perm_insertionSort seedPrecB seeds).mem_iff.mp hs

/-- Witness for the amended C7 on a concrete two-seed pack. -/
theorem saveEMS_roundtrip_witness :
    decodePayload ((SaveEMSFile (fun bs => bs) [(3, 4), (1, 2)]).1.drop 32) =
      sortSeedsB [(3, 4), (1, 2)] :=
  saveEMS_roundtrip (fun bs => bs) [(3, 4), (1, 2)] (by decide)

/-- C7 counterexample to the stated 33-byte skip: skipping 33 bytes of a
one-seed artifact misaligns the payload and does not reproduce the sorted
seed list. -/
theorem ems_roundtrip_skip33_counterexample :
    decodePayload ((SaveEMSFile (fun bs => bs) [(1, 2)]).1.drop 33) ≠
      sortSeedsB [(1, 2)] := by
  decide
